import Mathlib

set_option autoImplicit false
set_option maxRecDepth 100000

/-!
Shallow embedding of the probe-rs-rtt host-side RTT engine (`src/lib.rs`):
the control-block scanner (`Rtt::attach` / `Rtt::from`), the channel
descriptor parser (`RttChannel::from`), the bounded C-string reader
(`read_c_string`) and the ring-buffer channel operations
(`RttChannel::read` / `RttChannel::write` / `read_pointers` /
`readable_contiguous` / `writable_contiguous`).

Target memory is modelled as a total byte function `m : Nat → Nat`
(reads are truncated to `% 256`, mirroring `read_8` on `u8`); `u32`
address arithmetic is truncated with `wrap32`.  Rust panics
(slice-index out of bounds, `usize` subtraction overflow) are modelled
by the explicit `Outcome.panicked` result.  Host-side writes to target
memory are recorded as an explicit `TargetWrite` event trace so that
frame-effect claims can be stated.  Channel names are kept as the raw
byte lists extracted by `read_c_string`; the final lossy UTF-8 decode
performed by the Rust standard library is outside the repository and is
not modelled.
-/

namespace ProbeRsRtt

/-- Truncation for `u32` arithmetic on target addresses. -/
def wrap32 (n : Nat) : Nat := n % 4294967296

/-- One byte of target memory; `% 256` models the `u8` read of `read_8`. -/
def readByte (m : Nat → Nat) (a : Nat) : Nat := m a % 256

/-- `core.read_8(a, n)`: the `n` bytes of target memory starting at `a`. -/
def readBytes (m : Nat → Nat) (a : Nat) : Nat → List Nat
  | 0 => []
  | n + 1 => readByte m a :: readBytes m (a + 1) n

/-- Little-endian `u32` at byte offset `off` of a byte list
(`SliceExt::get_u32` value; the bounds panic is modelled by `getU32`). -/
def u32At (mem : List Nat) (off : Nat) : Nat :=
  mem.getD off 0 % 256 + 256 * (mem.getD (off + 1) 0 % 256) +
    65536 * (mem.getD (off + 2) 0 % 256) + 16777216 * (mem.getD (off + 3) 0 % 256)

/-- Direction of an RTT channel (`Direction` in the source). -/
inductive Direction
  | up
  | down
deriving DecidableEq

/-- A `probe_rs::config::MemoryRegion`: RAM, flash, or some other
(generic) region, each with a start/end address range. -/
inductive MemoryRegion
  | ram (rangeStart rangeEnd : Nat)
  | flash (rangeStart rangeEnd : Nat)
  | generic (rangeStart rangeEnd : Nat)
deriving DecidableEq

/-- Which live offset failed validation in `read_pointers`; this models
the `"write"` / `"read"` string in the formatted error. -/
inductive PtrKind
  | writePtr
  | readPtr
deriving DecidableEq

/-- The content of the `ControlBlockCorrupted` message built by
`read_pointers`: offending pointer, its value, the declared size, the
channel direction, its index and its (raw-byte) name. -/
structure CorruptDetail where
  which : PtrKind
  value : Nat
  size : Nat
  direction : Direction
  number : Nat
  name : Option (List Nat)
deriving DecidableEq

/-- The `Error` enum of the crate (transport errors cannot arise in this
model because target memory is a total function). -/
inductive RttError
  | controlBlockNotFound
  | multipleControlBlocksFound (addrs : List Nat)
  | noSuchChannel
  | controlBlockCorrupted (detail : CorruptDetail)
deriving DecidableEq

/-- Result of a fallible Rust computation: `Ok`, `Err`, or a panic
(slice-index out of bounds / arithmetic overflow). -/
inductive Outcome (α : Type)
  | ok (val : α)
  | err (e : RttError)
  | panicked
deriving DecidableEq

/-- `SliceExt::get_u32`: little-endian `u32` at `off`, panicking when
fewer than four bytes remain (as the slice index in the source does). -/
def getU32 (mem : List Nat) (off : Nat) : Outcome Nat :=
  if off + 4 ≤ mem.length then .ok (u32At mem off) else .panicked

/-- The `RttChannel` struct: one parsed channel descriptor. -/
structure RttChannel where
  number : Nat
  direction : Direction
  ptr : Nat
  name : Option (List Nat)
  buffer_ptr : Nat
  size : Nat
  flags : Nat
deriving DecidableEq

/-- The address range of a region usable for string reads: flash and RAM
regions only (`read_c_string`'s `filter_map`). -/
def strRange : MemoryRegion → Option (Nat × Nat)
  | .ram s e => some (s, e)
  | .flash s e => some (s, e)
  | .generic _ _ => none

/-- First flash or RAM region of the memory map containing `p`
(`range.contains(&ptr)`, i.e. `start ≤ p < end`). -/
def findStrRegion : List MemoryRegion → Nat → Option (Nat × Nat)
  | [], _ => none
  | r :: rest, p =>
    match strRange r with
    | some (s, e) => if s ≤ p ∧ p < e then some (s, e) else findStrRegion rest p
    | none => findStrRegion rest p

/-- `Iterator::position(|&b| b == 0)`: index of the first zero byte. -/
def position0 : List Nat → Option Nat
  | [] => none
  | b :: rest => if b = 0 then some 0 else (position0 rest).map (· + 1)

/-- `read_c_string`: bounded null-terminated read of a channel name from
target memory.  Returns the raw bytes preceding the terminator (the
source additionally lossy-decodes them as UTF-8, a standard-library step
outside this repository). -/
def readCString (m : Nat → Nat) (map : List MemoryRegion) (ptr : Nat) : Option (List Nat) :=
  match findStrRegion map ptr with
  | none => none
  | some (_, e) =>
    let bytes := readBytes m ptr (min 128 (e - ptr))
    match position0 bytes with
    | none => none
    | some p => some (bytes.take p)

/-- `RttChannel::from`: parse one 24-byte channel record.  A zero buffer
pointer denotes an unused slot (`Ok(None)`); otherwise the fields are
decoded verbatim at their fixed little-endian offsets. -/
def chFrom (m : Nat → Nat) (map : List MemoryRegion) (number : Nat) (dir : Direction)
    (ptr : Nat) (mem : List Nat) : Outcome (Option RttChannel) :=
  match getU32 mem 4 with
  | .ok bufferPtr =>
    if bufferPtr = 0 then .ok none
    else
      match getU32 mem 0, getU32 mem 8, getU32 mem 20 with
      | .ok namePtr, .ok size, .ok flags =>
        .ok (some { number := number, direction := dir, ptr := ptr,
                    name := if namePtr = 0 then none else readCString m map namePtr,
                    buffer_ptr := bufferPtr, size := size, flags := flags })
      | _, _, _ => .panicked
  | _ => .panicked

/-- The 16-byte control-block signature `"SEGGER RTT\0\0\0\0\0\0"`. -/
def rttId : List Nat := [83, 69, 71, 71, 69, 82, 32, 82, 84, 84, 0, 0, 0, 0, 0, 0]

/-- A parsed control block: its address and the up/down channel tables
(`BTreeMap` with ascending insertion order, modelled as an ascending
association list). -/
structure RttBlock where
  ptr : Nat
  upChannels : List (Nat × RttChannel)
  downChannels : List (Nat × RttChannel)
deriving DecidableEq

/-- The channel-table loops of `Rtt::from`: parse channels `i`, `i+1`,
…​ for `n` records at `baseOff + i * 24`, keeping used slots. -/
def parseChanLoop (m : Nat → Nat) (map : List MemoryRegion) (dir : Direction) (ptr : Nat)
    (mem : List Nat) (baseOff : Nat) : Nat → Nat → Outcome (List (Nat × RttChannel))
  | _, 0 => .ok []
  | i, n + 1 =>
    let off := baseOff + i * 24
    match chFrom m map i dir (wrap32 (ptr + off)) (mem.drop off) with
    | .ok none => parseChanLoop m map dir ptr mem baseOff (i + 1) n
    | .ok (some c) =>
      match parseChanLoop m map dir ptr mem baseOff (i + 1) n with
      | .ok rest => .ok ((i, c) :: rest)
      | r => r
    | .err e => .err e
    | .panicked => .panicked

/-- `Rtt::from`: validate the signature, read the channel counts, check
that the whole control block fits strictly inside the remaining region
bytes, then parse both channel tables.  Indexing a slice shorter than
the 16-byte signature panics in the source and yields `panicked` here. -/
def rttFrom (m : Nat → Nat) (map : List MemoryRegion) (ptr : Nat) (mem : List Nat) :
    Outcome (Option RttBlock) :=
  if mem.length < 16 then .panicked
  else if mem.take 16 ≠ rttId then .ok none
  else
    match getU32 mem 16, getU32 mem 20 with
    | .ok maxUp, .ok maxDown =>
      if mem.length ≤ 24 + (maxUp + maxDown) * 24 then .ok none
      else
        match parseChanLoop m map .up ptr mem 24 0 maxUp with
        | .ok ups =>
          match parseChanLoop m map .down ptr mem (24 + maxUp * 24) 0 maxDown with
          | .ok downs => .ok (some { ptr := ptr, upChannels := ups, downChannels := downs })
          | .err e => .err e
          | .panicked => .panicked
        | .err e => .err e
        | .panicked => .panicked
    | _, _ => .panicked

/-- The inner scan loop of `Rtt::attach`: try `rttFrom` at `n`
consecutive offsets starting at `i`; on a hit append it and stop the
whole scan (`break 'out`, flagged `true`) once more than five instances
are collected. -/
def scanOffsets (m : Nat → Nat) (map : List MemoryRegion) (base : Nat) (mem : List Nat) :
    Nat → Nat → List RttBlock → Outcome (List RttBlock × Bool)
  | 0, _, acc => .ok (acc, false)
  | n + 1, i, acc =>
    match rttFrom m map (wrap32 (base + i)) (mem.drop i) with
    | .ok none => scanOffsets m map base mem n (i + 1) acc
    | .ok (some r) =>
      let acc1 := acc ++ [r]
      if 5 < acc1.length then .ok (acc1, true)
      else scanOffsets m map base mem n (i + 1) acc1
    | .err e => .err e
    | .panicked => .panicked

/-- The region loop of `Rtt::attach`: snapshot every RAM region and scan
offsets `0 .. len - MIN_SIZE` (exclusive).  The source computes
`mem.len() - MIN_SIZE` in `usize`: for a region shorter than
`MIN_SIZE = 24` bytes that subtraction overflows — a panic in debug
builds, and in release builds the wrapped bound drives the 16-byte
signature slice out of bounds, also a panic — modelled as `panicked`. -/
def scanRegions (m : Nat → Nat) (map : List MemoryRegion) :
    List MemoryRegion → List RttBlock → Outcome (List RttBlock)
  | [], acc => .ok acc
  | .ram s e :: rest, acc =>
    let len := e - s
    let mem := readBytes m s len
    if len < 24 then .panicked
    else
      match scanOffsets m map s mem (len - 24) 0 acc with
      | .ok (acc1, true) => .ok acc1
      | .ok (acc1, false) => scanRegions m map rest acc1
      | .err er => .err er
      | .panicked => .panicked
  | _ :: rest, acc => scanRegions m map rest acc

/-- `Rtt::attach`: collect control-block candidates over the whole
memory map, then apply the result policy (none / exactly one / many). -/
def attach (m : Nat → Nat) (map : List MemoryRegion) : Outcome RttBlock :=
  match scanRegions m map map [] with
  | .ok instList =>
    if instList.length = 0 then .err .controlBlockNotFound
    else if 1 < instList.length then
      .err (.multipleControlBlocksFound (instList.map RttBlock.ptr))
    else
      match instList with
      | i :: _ => .ok i
      | [] => .err .controlBlockNotFound
  | .err e => .err e
  | .panicked => .panicked

/-- `ramRegionsOk map` states that every RAM region of the map is at
least `MIN_SIZE = 24` bytes long (the totality precondition of the scan
loop). -/
def ramRegionsOk (map : List MemoryRegion) : Bool :=
  map.all fun r =>
    match r with
    | .ram s e => decide (24 ≤ e - s)
    | _ => true

/-- `RttChannel::readable_contiguous`. -/
def readableContiguous (size write read : Nat) : Nat :=
  if read > write then size - read else write - read

/-- `RttChannel::writable_contiguous`. -/
def writableContiguous (size write read : Nat) : Nat :=
  if read > write then read - write - 1 else size - write

/-- The readable-bytes formula as the spec words it
(`write >= read ? write - read : size - read`). -/
def specReadable (size write read : Nat) : Nat :=
  if write ≥ read then write - read else size - read

/-- The writable-space formula as the spec words it
(`read > write ? read - write - 1 : size - write`). -/
def specWritable (size write read : Nat) : Nat :=
  if read > write then read - write - 1 else size - write

/-- The 8-byte block read by `read_pointers` at descriptor offset
`O_WRITE = 12`. -/
def pointerBlock (m : Nat → Nat) (ch : RttChannel) : List Nat :=
  readBytes m (wrap32 (ch.ptr + 12)) 8

/-- The live `write` offset fetched by `read_pointers`. -/
def fetchWrite (m : Nat → Nat) (ch : RttChannel) : Nat := u32At (pointerBlock m ch) 0

/-- The live `read` offset fetched by `read_pointers`. -/
def fetchRead (m : Nat → Nat) (ch : RttChannel) : Nat := u32At (pointerBlock m ch) 4

/-- `RttChannel::read_pointers`: fetch both live offsets in one 8-byte
transfer and validate each strictly below `size`, `write` first. -/
def readPointers (m : Nat → Nat) (ch : RttChannel) : Outcome (Nat × Nat) :=
  let write := fetchWrite m ch
  let read := fetchRead m ch
  if ch.size ≤ write then
    .err (.controlBlockCorrupted
      { which := .writePtr, value := write, size := ch.size, direction := ch.direction,
        number := ch.number, name := ch.name })
  else if ch.size ≤ read then
    .err (.controlBlockCorrupted
      { which := .readPtr, value := read, size := ch.size, direction := ch.direction,
        number := ch.number, name := ch.name })
  else .ok (write, read)

/-- One host-side write to target memory: a data chunk copied into the
ring buffer (`core.write_8(buffer_ptr + write, …)`), or a 4-byte
little-endian pointer write-back to the descriptor's read or write
offset field. -/
inductive TargetWrite
  | chunk (addr len : Nat)
  | setReadPtr (addr value : Nat)
  | setWritePtr (addr value : Nat)
deriving DecidableEq

/-- The copy loop of `RttChannel::read`: returns the total bytes copied
to the host and the final local read offset.  `fuel` bounds the number
of iterations; every taken iteration copies at least one byte of the
remaining host buffer, so fuel equal to the initial buffer length is
enough. -/
def readLoop (size write : Nat) : Nat → Nat → Nat → Nat → Nat × Nat
  | 0, read, _, total => (total, read)
  | fuel + 1, read, bufLen, total =>
    if bufLen = 0 then (total, read)
    else
      let count := min (readableContiguous size write read) bufLen
      if count = 0 then (total, read)
      else
        let read1 := if size ≤ read + count then 0 else read + count
        readLoop size write fuel read1 (bufLen - count) (total + count)

/-- The copy loop of `RttChannel::write`: returns the total bytes
copied, the final local write offset, and the chronological list of data
chunks written into the ring. -/
def writeLoop (size bufferPtr read : Nat) :
    Nat → Nat → Nat → Nat → Nat × Nat × List TargetWrite
  | 0, write, _, total => (total, write, [])
  | fuel + 1, write, bufLen, total =>
    if bufLen = 0 then (total, write, [])
    else
      let count := min (writableContiguous size write read) bufLen
      if count = 0 then (total, write, [])
      else
        let write1 := if size ≤ write + count then 0 else write + count
        let rest := writeLoop size bufferPtr read fuel write1 (bufLen - count) (total + count)
        (rest.1, rest.2.1, .chunk (wrap32 (bufferPtr + write)) count :: rest.2.2)

/-- `RttChannel::read` over a host buffer of `bufLen` bytes: the result
and the list of host-side writes to target memory (the read-pointer
write-back at descriptor offset `O_READ = 16`). -/
def channelRead (m : Nat → Nat) (ch : RttChannel) (bufLen : Nat) :
    Outcome Nat × List TargetWrite :=
  match readPointers m ch with
  | .ok (write, read) =>
    if readableContiguous ch.size write read = 0 then (.ok 0, [])
    else
      let r := readLoop ch.size write bufLen read bufLen 0
      (.ok r.1, [.setReadPtr (wrap32 (ch.ptr + 16)) r.2])
  | .err e => (.err e, [])
  | .panicked => (.panicked, [])

/-- `RttChannel::write` over a host buffer of `bufLen` bytes: the result
and the list of host-side writes to target memory (the data chunks, then
the write-pointer write-back at descriptor offset `O_WRITE = 12`). -/
def channelWrite (m : Nat → Nat) (ch : RttChannel) (bufLen : Nat) :
    Outcome Nat × List TargetWrite :=
  match readPointers m ch with
  | .ok (write, read) =>
    if writableContiguous ch.size write read = 0 then (.ok 0, [])
    else
      let r := writeLoop ch.size ch.buffer_ptr read bufLen write bufLen 0
      (.ok r.1, r.2.2 ++ [.setWritePtr (wrap32 (ch.ptr + 12)) r.2.1])
  | .err e => (.err e, [])
  | .panicked => (.panicked, [])

/-- Does a region qualify for string reads and contain address `p`? -/
def strContains (r : MemoryRegion) (p : Nat) : Bool :=
  match strRange r with
  | some (s, e) => decide (s ≤ p ∧ p < e)
  | none => false

/-- Is a target write a ring-buffer data chunk? -/
def isChunk : TargetWrite → Bool
  | .chunk _ _ => true
  | _ => false

/-- A target write an up-channel read is allowed to perform: only the
read-pointer write-back at descriptor offset `O_READ = 16`. -/
def hostWriteOkRead (ch : RttChannel) : TargetWrite → Bool
  | .setReadPtr a _ => a == wrap32 (ch.ptr + 16)
  | _ => false

/-- A target write a down-channel write is allowed to perform: data
chunks, and the write-pointer write-back at `O_WRITE = 12`; never the
read-pointer field. -/
def hostWriteOkWrite (ch : RttChannel) : TargetWrite → Bool
  | .setWritePtr a _ => a == wrap32 (ch.ptr + 12)
  | .chunk _ _ => true
  | .setReadPtr _ _ => false

/-- A 20-byte pattern: the RTT signature followed by an absurdly large
little-endian `max_up_channels` count. -/
def scenPattern : List Nat := rttId ++ [255, 255, 255, 255]

/-- Target memory holding `scenPattern` both at address 0 and at
address 100: two incidental signature matches that both fail the
control-block bounds check. -/
def mScen : Nat → Nat := fun a =>
  if a < 100 then scenPattern.getD a 0 else scenPattern.getD (a - 100) 0

theorem readBytes_length (m : Nat → Nat) : ∀ (n a : Nat), (readBytes m a n).length = n := by
  intro n
  induction n with
  | zero => intro a; rfl
  | succ k ih => intro a; simp [readBytes, ih]

theorem getU32_ok (mem : List Nat) (off : Nat) (h : off + 4 ≤ mem.length) :
    getU32 mem off = .ok (u32At mem off) := by
  unfold getU32
  rw [if_pos h]

/-- Full characterization of the channel descriptor parser on a record
of at least 24 bytes: acceptance depends only on the buffer pointer, and
the accepted fields are the verbatim little-endian decodes. -/
theorem chFrom_eq (m : Nat → Nat) (map : List MemoryRegion) (number : Nat) (dir : Direction)
    (ptr : Nat) (mem : List Nat) (h : 24 ≤ mem.length) :
    chFrom m map number dir ptr mem =
      (if u32At mem 4 = 0 then .ok none
       else .ok (some { number := number, direction := dir, ptr := ptr,
                        name := if u32At mem 0 = 0 then none
                                else readCString m map (u32At mem 0),
                        buffer_ptr := u32At mem 4, size := u32At mem 8,
                        flags := u32At mem 20 })) := by
  have h0 := getU32_ok mem 0 (by omega)
  have h4 := getU32_ok mem 4 (by omega)
  have h8 := getU32_ok mem 8 (by omega)
  have h20 := getU32_ok mem 20 (by omega)
  by_cases hz : u32At mem 4 = 0
  · simp [chFrom, h4, hz]
  · simp [chFrom, h0, h4, h8, h20, hz]

theorem chFrom_ok (m : Nat → Nat) (map : List MemoryRegion) (number : Nat) (dir : Direction)
    (ptr : Nat) (mem : List Nat) (h : 24 ≤ mem.length) :
    ∃ o, chFrom m map number dir ptr mem = .ok o := by
  rw [chFrom_eq m map number dir ptr mem h]
  split
  · exact ⟨_, rfl⟩
  · exact ⟨_, rfl⟩

theorem parseChanLoop_ok (m : Nat → Nat) (map : List MemoryRegion) (dir : Direction)
    (ptr : Nat) (mem : List Nat) (baseOff : Nat) :
    ∀ n i, baseOff + (i + n) * 24 ≤ mem.length →
      ∃ l, parseChanLoop m map dir ptr mem baseOff i n = .ok l := by
  intro n
  induction n with
  | zero => intro i _; exact ⟨[], rfl⟩
  | succ k ih =>
    intro i h
    have hlen : 24 ≤ (mem.drop (baseOff + i * 24)).length := by
      rw [List.length_drop]; omega
    obtain ⟨o, ho⟩ :=
      chFrom_ok m map i dir (wrap32 (ptr + (baseOff + i * 24))) _ hlen
    obtain ⟨l, hl⟩ := ih (i + 1) (by omega)
    cases o with
    | none => exact ⟨l, by simp [parseChanLoop, ho, hl]⟩
    | some c => exact ⟨(i, c) :: l, by simp [parseChanLoop, ho, hl]⟩

theorem rttFrom_ok (m : Nat → Nat) (map : List MemoryRegion) (ptr : Nat) (mem : List Nat)
    (h : 24 ≤ mem.length) : ∃ o, rttFrom m map ptr mem = .ok o := by
  have h16 := getU32_ok mem 16 (by omega)
  have h20 := getU32_ok mem 20 (by omega)
  unfold rttFrom
  rw [if_neg (by omega : ¬ mem.length < 16)]
  by_cases hsig : mem.take 16 ≠ rttId
  · rw [if_pos hsig]; exact ⟨none, rfl⟩
  · rw [if_neg hsig]
    simp only [h16, h20]
    by_cases hfit : mem.length ≤ 24 + (u32At mem 16 + u32At mem 20) * 24
    · rw [if_pos hfit]; exact ⟨none, rfl⟩
    · rw [if_neg hfit]
      obtain ⟨ups, hu⟩ :=
        parseChanLoop_ok m map .up ptr mem 24 (u32At mem 16) 0 (by omega)
      obtain ⟨downs, hd⟩ :=
        parseChanLoop_ok m map .down ptr mem (24 + u32At mem 16 * 24) (u32At mem 20) 0
          (by omega)
      refine ⟨some ⟨ptr, ups, downs⟩, ?_⟩
      rw [hu, hd]

theorem scanOffsets_step (m : Nat → Nat) (map : List MemoryRegion) (base : Nat)
    (mem : List Nat) (n i : Nat) (acc : List RttBlock) :
    scanOffsets m map base mem (n + 1) i acc =
      (match rttFrom m map (wrap32 (base + i)) (mem.drop i) with
       | .ok none => scanOffsets m map base mem n (i + 1) acc
       | .ok (some r) =>
         if 5 < (acc ++ [r]).length then .ok (acc ++ [r], true)
         else scanOffsets m map base mem n (i + 1) (acc ++ [r])
       | .err e => .err e
       | .panicked => .panicked) := rfl

theorem scanRegions_ram_step (m : Nat → Nat) (map : List MemoryRegion) (s e : Nat)
    (rest : List MemoryRegion) (acc : List RttBlock) :
    scanRegions m map (.ram s e :: rest) acc =
      (if e - s < 24 then Outcome.panicked
       else
         match scanOffsets m map s (readBytes m s (e - s)) (e - s - 24) 0 acc with
         | .ok (acc1, true) => .ok acc1
         | .ok (acc1, false) => scanRegions m map rest acc1
         | .err er => .err er
         | .panicked => .panicked) := rfl

theorem scanRegions_flash_step (m : Nat → Nat) (map : List MemoryRegion) (s e : Nat)
    (rest : List MemoryRegion) (acc : List RttBlock) :
    scanRegions m map (.flash s e :: rest) acc = scanRegions m map rest acc := rfl

theorem scanRegions_generic_step (m : Nat → Nat) (map : List MemoryRegion) (s e : Nat)
    (rest : List MemoryRegion) (acc : List RttBlock) :
    scanRegions m map (.generic s e :: rest) acc = scanRegions m map rest acc := rfl

theorem scanOffsets_ok (m : Nat → Nat) (map : List MemoryRegion) (base : Nat)
    (mem : List Nat) :
    ∀ n i acc, i + n + 24 ≤ mem.length →
      ∃ r, scanOffsets m map base mem n i acc = .ok r := by
  intro n
  induction n with
  | zero => intro i acc _; exact ⟨(acc, false), rfl⟩
  | succ k ih =>
    intro i acc h
    have hlen : 24 ≤ (mem.drop i).length := by rw [List.length_drop]; omega
    obtain ⟨o, ho⟩ := rttFrom_ok m map (wrap32 (base + i)) _ hlen
    cases o with
    | none =>
      obtain ⟨r, hr⟩ := ih (i + 1) acc (by omega)
      exact ⟨r, by rw [scanOffsets_step, ho]; exact hr⟩
    | some blk =>
      by_cases h5 : 5 < (acc ++ [blk]).length
      · exact ⟨(acc ++ [blk], true), by rw [scanOffsets_step, ho]; exact if_pos h5⟩
      · obtain ⟨r, hr⟩ := ih (i + 1) (acc ++ [blk]) (by omega)
        exact ⟨r, by rw [scanOffsets_step, ho]; exact (if_neg h5).trans hr⟩

theorem scanRegions_ok (m : Nat → Nat) (map : List MemoryRegion) :
    ∀ regions acc, ramRegionsOk regions = true →
      ∃ l, scanRegions m map regions acc = .ok l := by
  intro regions
  induction regions with
  | nil => intro acc _; exact ⟨acc, rfl⟩
  | cons r rest ih =>
    intro acc hok
    rw [ramRegionsOk, List.all_cons, Bool.and_eq_true] at hok
    obtain ⟨hr, hrest⟩ := hok
    cases r with
    | ram s e =>
      have h24 : 24 ≤ e - s := by simpa using hr
      obtain ⟨⟨acc1, b⟩, hso⟩ :=
        scanOffsets_ok m map s (readBytes m s (e - s)) (e - s - 24) 0 acc
          (by rw [readBytes_length]; omega)
      cases b with
      | true =>
        exact ⟨acc1, by rw [scanRegions_ram_step, if_neg (by omega), hso]⟩
      | false =>
        obtain ⟨l, hl⟩ := ih acc1 hrest
        exact ⟨l, by rw [scanRegions_ram_step, if_neg (by omega), hso]; exact hl⟩
    | flash s e =>
      obtain ⟨l, hl⟩ := ih acc hrest
      exact ⟨l, by rw [scanRegions_flash_step]; exact hl⟩
    | generic s e =>
      obtain ⟨l, hl⟩ := ih acc hrest
      exact ⟨l, by rw [scanRegions_generic_step]; exact hl⟩

theorem scanOffsets_length (m : Nat → Nat) (map : List MemoryRegion) (base : Nat)
    (mem : List Nat) :
    ∀ n i acc l b, acc.length ≤ 5 →
      scanOffsets m map base mem n i acc = .ok (l, b) →
      l.length ≤ 6 ∧ (b = false → l.length ≤ 5) := by
  intro n
  induction n with
  | zero =>
    intro i acc l b hacc h
    obtain ⟨rfl, rfl⟩ : acc = l ∧ false = b := by simpa [scanOffsets] using h
    exact ⟨by omega, fun _ => hacc⟩
  | succ k ih =>
    intro i acc l b hacc h
    rw [scanOffsets_step] at h
    cases hrf : rttFrom m map (wrap32 (base + i)) (mem.drop i) with
    | ok o =>
      rw [hrf] at h
      cases o with
      | none => exact ih (i + 1) acc l b hacc h
      | some blk =>
        have h2 : (if 5 < (acc ++ [blk]).length then Outcome.ok (acc ++ [blk], true)
            else scanOffsets m map base mem k (i + 1) (acc ++ [blk])) =
            Outcome.ok (l, b) := h
        by_cases h5 : 5 < (acc ++ [blk]).length
        · rw [if_pos h5] at h2
          obtain ⟨rfl, rfl⟩ : acc ++ [blk] = l ∧ true = b := by simpa using h2
          refine ⟨by simp; omega, ?_⟩
          intro hc
          simp at hc
        · rw [if_neg h5] at h2
          exact ih (i + 1) (acc ++ [blk]) l b (Nat.not_lt.mp h5) h2
    | err e0 => rw [hrf] at h; simp at h
    | panicked => rw [hrf] at h; simp at h

theorem scanRegions_length (m : Nat → Nat) (map : List MemoryRegion) :
    ∀ regions acc l, acc.length ≤ 5 →
      scanRegions m map regions acc = .ok l → l.length ≤ 6 := by
  intro regions
  induction regions with
  | nil =>
    intro acc l hacc h
    obtain rfl : acc = l := by
      have h' : (Outcome.ok acc : Outcome (List RttBlock)) = .ok l := h
      simpa using h'
    omega
  | cons r rest ih =>
    intro acc l hacc h
    cases r with
    | ram s e =>
      rw [scanRegions_ram_step] at h
      by_cases hlen : e - s < 24
      · rw [if_pos hlen] at h; simp at h
      · rw [if_neg hlen] at h
        cases hso : scanOffsets m map s (readBytes m s (e - s)) (e - s - 24) 0 acc with
        | ok p =>
          obtain ⟨acc1, b⟩ := p
          have hb := scanOffsets_length m map s (readBytes m s (e - s))
            (e - s - 24) 0 acc acc1 b hacc hso
          rw [hso] at h
          cases b with
          | true =>
            obtain rfl : acc1 = l := by simpa using h
            exact hb.1
          | false => exact ih acc1 l (hb.2 rfl) h
        | err er => rw [hso] at h; simp at h
        | panicked => rw [hso] at h; simp at h
    | flash s e => rw [scanRegions_flash_step] at h; exact ih acc l hacc h
    | generic s e => rw [scanRegions_generic_step] at h; exact ih acc l hacc h

theorem position0_eq_none (l : List Nat) (h : ∀ b ∈ l, b ≠ 0) : position0 l = none := by
  induction l with
  | nil => rfl
  | cons a tl ih =>
    have ha : a ≠ 0 := h a (by simp)
    simp [position0, ha, ih (fun b hb => h b (by simp [hb]))]

theorem position0_of_append (pre rest : List Nat) (h : ∀ b ∈ pre, b ≠ 0) :
    position0 (pre ++ 0 :: rest) = some pre.length := by
  induction pre with
  | nil => simp [position0]
  | cons a tl ih =>
    have ha : a ≠ 0 := h a (by simp)
    simp [position0, ha, ih (fun b hb => h b (by simp [hb]))]

theorem findStrRegion_eq_none (p : Nat) :
    ∀ map : List MemoryRegion, (map.all fun r => !(strContains r p)) = true →
      findStrRegion map p = none := by
  intro map
  induction map with
  | nil => intro _; rfl
  | cons r rest ih =>
    intro h
    rw [List.all_cons, Bool.and_eq_true] at h
    obtain ⟨hr, hrest⟩ := h
    cases hsr : strRange r with
    | none =>
      simp only [findStrRegion, hsr]
      exact ih hrest
    | some pr =>
      obtain ⟨s, e⟩ := pr
      have hni : ¬ (s ≤ p ∧ p < e) := by
        simp only [strContains, hsr] at hr
        simp at hr
        omega
      simp only [findStrRegion, hsr, if_neg hni]
      exact ih hrest

theorem writeLoop_trace_chunks (size bufferPtr read : Nat) :
    ∀ fuel write bufLen total,
      ((writeLoop size bufferPtr read fuel write bufLen total).2.2).all isChunk = true := by
  intro fuel
  induction fuel with
  | zero => intro write bufLen total; rfl
  | succ k ih =>
    intro write bufLen total
    by_cases h0 : bufLen = 0
    · simp [writeLoop, h0]
    · by_cases hc : min (writableContiguous size write read) bufLen = 0
      · simp [writeLoop, h0, hc]
      · simp [writeLoop, h0, hc, isChunk, ih]

theorem all_isChunk_ok (ch : RttChannel) :
    ∀ l : List TargetWrite, l.all isChunk = true → l.all (hostWriteOkWrite ch) = true := by
  intro l
  induction l with
  | nil => intro _; rfl
  | cons a tl ih =>
    intro h
    rw [List.all_cons, Bool.and_eq_true] at h ⊢
    refine ⟨?_, ih h.2⟩
    cases a with
    | chunk x y => rfl
    | setReadPtr x y => simpa [isChunk] using h.1
    | setWritePtr x y => simpa [isChunk] using h.1

/-- Claim C4: for validated offsets (`write < size`, `read < size`), the
per-chunk transfer-size functions of the code, `readable_contiguous` and
`writable_contiguous`, equal the spec's formulas
(`write >= read ? write - read : size - read` for reading and
`read > write ? read - write - 1 : size - write` for writing). -/
theorem contiguous_formulas_match_spec (size write read : Nat)
    (hw : write < size) (hr : read < size) :
    readableContiguous size write read = specReadable size write read ∧
    writableContiguous size write read = specWritable size write read := by
  constructor
  · unfold readableContiguous specReadable
    split_ifs <;> omega
  · rfl

theorem contiguous_formulas_match_spec_witness :
    readableContiguous 16 3 5 = specReadable 16 3 5 ∧
    writableContiguous 16 3 5 = specWritable 16 3 5 :=
  contiguous_formulas_match_spec 16 3 5 (by decide) (by decide)

/-- Claim C1 (code bug): on a size-16 channel the write call is claimed
to copy exactly `size - 1 = 15` bytes when the ring is empty and `0`
bytes when it is full.  The code lacks the `read == 0` special case in
`writable_contiguous`: when `write == read == 0` (empty) a 32-byte write
copies all 32 bytes, and when `write = 15, read = 0` (full,
`read == (write + 1) mod size`) it still copies 1 byte.  Only for
`read == write ≠ 0` does it copy the claimed `size - 1 = 15`. -/
theorem write_capacity_ignores_read_zero :
    (channelWrite (fun _ => 0) ⟨0, .down, 1000, none, 2000, 16, 0⟩ 32).1 = .ok 32 ∧
    (channelWrite (fun a => if a = 1012 then 15 else 0)
        ⟨0, .down, 1000, none, 2000, 16, 0⟩ 1).1 = .ok 1 ∧
    (channelWrite (fun a => if a = 1012 then 3 else if a = 1016 then 3 else 0)
        ⟨0, .down, 1000, none, 2000, 16, 0⟩ 32).1 = .ok 15 :=
  ⟨rfl, rfl, rfl⟩

/-- Claim C3: whenever either fetched live offset is not strictly below
`buffer_size`, both the read and the write call fail with
`ControlBlockCorrupted` whose detail names the offending pointer (the
`write` pointer takes precedence), its value, the declared size, the
direction, the index and the name, and no write to target memory is
performed (the effect trace is empty). -/
theorem corrupted_offset_rejected (m : Nat → Nat) (ch : RttChannel) (bufLen : Nat)
    (h : ch.size ≤ fetchWrite m ch ∨ ch.size ≤ fetchRead m ch) :
    ∃ d : CorruptDetail,
      channelRead m ch bufLen = (.err (.controlBlockCorrupted d), []) ∧
      channelWrite m ch bufLen = (.err (.controlBlockCorrupted d), []) ∧
      d.which = (if ch.size ≤ fetchWrite m ch then PtrKind.writePtr else PtrKind.readPtr) ∧
      d.value = (if ch.size ≤ fetchWrite m ch then fetchWrite m ch else fetchRead m ch) ∧
      d.size = ch.size ∧ d.direction = ch.direction ∧
      d.number = ch.number ∧ d.name = ch.name := by
  by_cases hw : ch.size ≤ fetchWrite m ch
  · refine ⟨⟨.writePtr, fetchWrite m ch, ch.size, ch.direction, ch.number, ch.name⟩,
      ?_, ?_, by simp [hw], by simp [hw], rfl, rfl, rfl, rfl⟩
    · simp [channelRead, readPointers, hw]
    · simp [channelWrite, readPointers, hw]
  · rcases h with h | hr
    · exact absurd h hw
    · refine ⟨⟨.readPtr, fetchRead m ch, ch.size, ch.direction, ch.number, ch.name⟩,
        ?_, ?_, by simp [hw], by simp [hw], rfl, rfl, rfl, rfl⟩
      · simp [channelRead, readPointers, hw, hr]
      · simp [channelWrite, readPointers, hw, hr]

theorem corrupted_offset_rejected_witness :
    ∃ d : CorruptDetail,
      channelRead (fun a => if a = 1012 then 16 else 0)
          ⟨7, .up, 1000, none, 2000, 16, 0⟩ 4 =
        (.err (.controlBlockCorrupted d), []) ∧
      channelWrite (fun a => if a = 1012 then 16 else 0)
          ⟨7, .up, 1000, none, 2000, 16, 0⟩ 4 =
        (.err (.controlBlockCorrupted d), []) ∧
      d.which = (if (16 : Nat) ≤ fetchWrite (fun a => if a = 1012 then 16 else 0)
          ⟨7, .up, 1000, none, 2000, 16, 0⟩ then PtrKind.writePtr else PtrKind.readPtr) ∧
      d.value = (if (16 : Nat) ≤ fetchWrite (fun a => if a = 1012 then 16 else 0)
          ⟨7, .up, 1000, none, 2000, 16, 0⟩ then
            fetchWrite (fun a => if a = 1012 then 16 else 0) ⟨7, .up, 1000, none, 2000, 16, 0⟩
          else
            fetchRead (fun a => if a = 1012 then 16 else 0)
              ⟨7, .up, 1000, none, 2000, 16, 0⟩) ∧
      d.size = 16 ∧ d.direction = .up ∧ d.number = 7 ∧ d.name = none :=
  corrupted_offset_rejected (fun a => if a = 1012 then 16 else 0)
    ⟨7, .up, 1000, none, 2000, 16, 0⟩ 4 (Or.inl (by decide))

/-- Claim C10: with validated offsets, a read call that finds no
readable bytes (readable count zero, equivalently `write == read`, the
empty ring) returns `Ok(0)` with no target-memory write at all, and a
write call that finds no writable space returns `Ok(0)` with no
target-memory write at all. -/
theorem zero_transfer_no_effects (m : Nat → Nat) (ch : RttChannel) (bufLen : Nat)
    (hw : fetchWrite m ch < ch.size) (hr : fetchRead m ch < ch.size) :
    (readableContiguous ch.size (fetchWrite m ch) (fetchRead m ch) = 0 ↔
      fetchWrite m ch = fetchRead m ch) ∧
    (readableContiguous ch.size (fetchWrite m ch) (fetchRead m ch) = 0 →
      channelRead m ch bufLen = (.ok 0, [])) ∧
    (writableContiguous ch.size (fetchWrite m ch) (fetchRead m ch) = 0 →
      channelWrite m ch bufLen = (.ok 0, [])) := by
  refine ⟨?_, ?_, ?_⟩
  · unfold readableContiguous
    split_ifs <;> omega
  · intro h0
    simp [channelRead, readPointers, Nat.not_le.mpr hw, Nat.not_le.mpr hr, h0]
  · intro h0
    simp [channelWrite, readPointers, Nat.not_le.mpr hw, Nat.not_le.mpr hr, h0]

theorem zero_transfer_no_effects_witness :
    channelRead (fun _ => 0) ⟨0, .up, 1000, none, 2000, 16, 0⟩ 4 = (.ok 0, []) ∧
    channelWrite (fun a => if a = 1016 then 1 else 0)
      ⟨0, .down, 1000, none, 2000, 16, 0⟩ 4 = (.ok 0, []) :=
  ⟨(zero_transfer_no_effects (fun _ => 0) ⟨0, .up, 1000, none, 2000, 16, 0⟩ 4
      (by decide) (by decide)).2.1 (by decide),
   (zero_transfer_no_effects (fun a => if a = 1016 then 1 else 0)
      ⟨0, .down, 1000, none, 2000, 16, 0⟩ 4 (by decide) (by decide)).2.2 (by decide)⟩

/-- Claim C8: every target-memory write a read call performs is the
read-pointer write-back at descriptor offset 16 (never the write offset,
never data), and every target-memory write a write call performs is
either a ring-buffer data chunk or the write-pointer write-back at
descriptor offset 12 (never the read offset). -/
theorem pointer_ownership (m : Nat → Nat) (ch : RttChannel) (bufLen : Nat) :
    ((channelRead m ch bufLen).2.all (hostWriteOkRead ch)) = true ∧
    ((channelWrite m ch bufLen).2.all (hostWriteOkWrite ch)) = true := by
  constructor
  · cases hrp : readPointers m ch with
    | ok p =>
      obtain ⟨w, r⟩ := p
      by_cases h0 : readableContiguous ch.size w r = 0
      · simp [channelRead, hrp, h0]
      · simp [channelRead, hrp, h0, hostWriteOkRead]
    | err e => simp [channelRead, hrp]
    | panicked => simp [channelRead, hrp]
  · cases hrp : readPointers m ch with
    | ok p =>
      obtain ⟨w, r⟩ := p
      by_cases h0 : writableContiguous ch.size w r = 0
      · simp [channelWrite, hrp, h0]
      · have hall := all_isChunk_ok ch _
          (writeLoop_trace_chunks ch.size ch.buffer_ptr r bufLen w bufLen 0)
        simp [channelWrite, hrp, h0, List.all_append, hostWriteOkWrite, hall]
    | err e => simp [channelWrite, hrp]
    | panicked => simp [channelWrite, hrp]

/-- Claim C2 counterexample: the descriptor parser accepts a record
whose declared `buffer_size` (`0xFFFFFFFF`) vastly exceeds the length of
the region `[0, 32)` containing its buffer pointer — no size-vs-region
validation happens at parse time. -/
theorem parser_accepts_oversized_buffer :
    chFrom (fun _ => 0) [.ram 0 32] 0 .up 500
        [0, 0, 0, 0, 16, 0, 0, 0, 255, 255, 255, 255,
         0, 0, 0, 0, 0, 0, 0, 0, 0, 0, 0, 0] =
      .ok (some ⟨0, .up, 500, none, 16, 4294967295, 0⟩) ∧
    ((32 : Nat) - 0 < 4294967295) :=
  ⟨rfl, by decide⟩

/-- Claim C2 as amended: the parser validates only that the buffer
pointer is nonzero; every field, `buffer_size` included, is decoded
verbatim with no validation against the memory map. -/
theorem parser_checks_only_buffer_ptr (m : Nat → Nat) (map : List MemoryRegion)
    (number : Nat) (dir : Direction) (ptr : Nat) (mem : List Nat) (h : 24 ≤ mem.length) :
    (u32At mem 4 = 0 → chFrom m map number dir ptr mem = .ok none) ∧
    (u32At mem 4 ≠ 0 →
      chFrom m map number dir ptr mem = .ok (some
        { number := number, direction := dir, ptr := ptr,
          name := if u32At mem 0 = 0 then none else readCString m map (u32At mem 0),
          buffer_ptr := u32At mem 4, size := u32At mem 8, flags := u32At mem 20 })) := by
  rw [chFrom_eq m map number dir ptr mem h]
  constructor
  · intro hz; rw [if_pos hz]
  · intro hnz; rw [if_neg hnz]

theorem parser_checks_only_buffer_ptr_witness :
    chFrom (fun _ => 0) [] 0 .up 0 (List.replicate 24 0) = .ok none :=
  (parser_checks_only_buffer_ptr (fun _ => 0) [] 0 .up 0 (List.replicate 24 0)
    (by decide)).1 (by decide)

/-- Claim C6: a signature match whose decoded channel counts make the
24-byte header plus `(max_up + max_down) * 24` bytes of records not fit
strictly inside the remaining region bytes is rejected silently
(`Ok(None)`, no error); and the concrete scenario of two RAM regions
whose only signature matches both fail the bounds check ends in
`ControlBlockNotFound`. -/
theorem nonfitting_candidate_rejected :
    (∀ (m : Nat → Nat) (map : List MemoryRegion) (ptr : Nat) (mem : List Nat),
        24 ≤ mem.length → mem.take 16 = rttId →
        mem.length ≤ 24 + (u32At mem 16 + u32At mem 20) * 24 →
        rttFrom m map ptr mem = .ok none) ∧
    attach mScen [.ram 0 48, .ram 100 148] = .err .controlBlockNotFound := by
  constructor
  · intro m map ptr mem hlen hsig hfit
    have h16 := getU32_ok mem 16 (by omega)
    have h20 := getU32_ok mem 20 (by omega)
    unfold rttFrom
    rw [if_neg (by omega : ¬ mem.length < 16)]
    rw [if_neg (by simp [hsig] : ¬ mem.take 16 ≠ rttId)]
    simp only [h16, h20]
    rw [if_pos hfit]
  · rfl

theorem nonfitting_candidate_rejected_witness :
    rttFrom (fun _ => 0) [] 0 (rttId ++ [255, 255, 255, 255, 0, 0, 0, 0]) = .ok none :=
  nonfitting_candidate_rejected.1 (fun _ => 0) [] 0 _ (by decide) (by decide) (by decide)

/-- Claim C7: when no flash or RAM region contains the name pointer the
reader returns `None`; otherwise it examines the window of
`min(128, region_end - ptr)` bytes at the pointer and returns the bytes
preceding the first zero byte when one occurs in the window, and `None`
when none does. -/
theorem read_c_string_bounded (m : Nat → Nat) (map : List MemoryRegion) (ptr : Nat) :
    ((map.all fun r => !(strContains r ptr)) = true → readCString m map ptr = none) ∧
    (∀ s e, findStrRegion map ptr = some (s, e) →
      ((∀ b ∈ readBytes m ptr (min 128 (e - ptr)), b ≠ 0) →
        readCString m map ptr = none) ∧
      (∀ pre rest, readBytes m ptr (min 128 (e - ptr)) = pre ++ 0 :: rest →
        (∀ b ∈ pre, b ≠ 0) →
        readCString m map ptr = some pre)) := by
  constructor
  · intro hall
    have hnone := findStrRegion_eq_none ptr map hall
    simp [readCString, hnone]
  · intro s e hfind
    constructor
    · intro hz
      simp [readCString, hfind, position0_eq_none _ hz]
    · intro pre rest hsplit hpre
      have hp := position0_of_append pre rest hpre
      simp [readCString, hfind, hsplit, hp]

theorem read_c_string_bounded_witness :
    readCString (fun a => if a < 5 then 65 else 0) [.flash 0 10] 3 = some [65, 65] :=
  ((read_c_string_bounded (fun a => if a < 5 then 65 else 0) [.flash 0 10] 3).2
      0 10 (by decide)).2 [65, 65] [0, 0, 0, 0] (by decide) (by decide)

/-- Claim C5: on a scan that completes without panic, at most 6
candidates are collected, and the result policy is: zero candidates →
`ControlBlockNotFound`; exactly one → that control block; more than one
→ `MultipleControlBlocksFound` carrying every collected candidate's
address. -/
theorem attach_candidate_policy (m : Nat → Nat) (map : List MemoryRegion)
    (l : List RttBlock) (h : scanRegions m map map [] = .ok l) :
    l.length ≤ 6 ∧
    (l = [] → attach m map = .err .controlBlockNotFound) ∧
    (∀ i, l = [i] → attach m map = .ok i) ∧
    (1 < l.length → attach m map = .err (.multipleControlBlocksFound (l.map RttBlock.ptr))) := by
  refine ⟨scanRegions_length m map map [] l (by simp) h, ?_, ?_, ?_⟩
  · rintro rfl
    simp [attach, h]
  · rintro i rfl
    simp [attach, h]
  · intro h2
    simp only [attach, h]
    rw [if_neg (by omega), if_pos h2]

theorem attach_candidate_policy_witness :
    attach (fun _ => 0) [] = .err .controlBlockNotFound :=
  (attach_candidate_policy (fun _ => 0) [] [] rfl).2.1 rfl

/-- Claim C9: the scan loop of `attach` is total exactly under the
precondition that every RAM region is at least `MIN_SIZE = 24` bytes
long — with the precondition `attach` never panics, and on a memory map
with a 10-byte RAM region the `mem.len() - MIN_SIZE` loop bound
underflows and `attach` panics instead of returning an error. -/
theorem short_ram_region_panics :
    (∀ (m : Nat → Nat) (map : List MemoryRegion),
        ramRegionsOk map = true → attach m map ≠ Outcome.panicked) ∧
    attach (fun _ => 0) [MemoryRegion.ram 0 10] = Outcome.panicked := by
  constructor
  · intro m map hok
    obtain ⟨l, hl⟩ := scanRegions_ok m map map [] hok
    simp only [attach, hl]
    split_ifs <;> cases l <;> simp
  · rfl

theorem short_ram_region_panics_witness :
    attach (fun _ => 0) [MemoryRegion.ram 0 32] ≠ Outcome.panicked :=
  short_ram_region_panics.1 (fun _ => 0) [MemoryRegion.ram 0 32] (by decide)

end ProbeRsRtt
